import Mathlib

/-!
Verification of the request pipeline of the presearch-mcp-server repository:
sliding-window rate limiter, TTL cache with creation-order eviction, retry
controller with exponential backoff, error classification, and response
normalization.  Each TypeScript function is embedded as an executable Lean
definition; timestamps are modelled as integers (milliseconds), and the
retry delays as rationals.
-/

namespace Presearch

/-! ## Rate limiter (src/utils/rate-limiter.ts, class RateLimiter)

The limiter state is the `requests` array of admission timestamps.  The
configuration values `limit` (`rateLimit`) and `windowMs`
(`rateLimitWindow`) together with the `enableRateLimit` flag are passed
explicitly; `Date.now()` becomes the explicit argument `now`. -/

structure RLState where
  requests : List Int
  deriving Repr, DecidableEq

/-- Embedding of `RateLimiter.cleanup`: drop every timestamp `t` with
`t <= now - windowMs` (the source keeps `timestamp > cutoff`). -/
def RateLimiter.cleanup (windowMs now : Int) (s : RLState) : RLState :=
  ⟨s.requests.filter (fun t => now - windowMs < t)⟩

/-- Embedding of `RateLimiter.checkLimit`: when rate limiting is disabled the
call is admitted without touching the state; otherwise old timestamps are
purged, the call is rejected iff the surviving count reaches `limit`, and an
admitted call appends `now`. -/
def RateLimiter.checkLimit (enable : Bool) (limit : Nat) (windowMs now : Int)
    (s : RLState) : Bool × RLState :=
  if !enable then (true, s)
  else
    let purged := RateLimiter.cleanup windowMs now s
    if limit ≤ purged.requests.length then (false, purged)
    else (true, ⟨purged.requests ++ [now]⟩)

/-- Iterated admission: `k` successive `checkLimit` calls, all issued at the
same instant `t`, starting from the empty limiter. -/
def RateLimiter.iterate (limit : Nat) (windowMs t : Int) : Nat → RLState
  | 0 => ⟨[]⟩
  | k + 1 =>
      (RateLimiter.checkLimit true limit windowMs t
        (RateLimiter.iterate limit windowMs t k)).2

theorem filter_keep_replicate {p : Int → Bool} {a : Int} (k : Nat) (h : p a = true) :
    (List.replicate k a).filter p = List.replicate k a := by
  induction k with
  | zero => rfl
  | succ n ih => simp [List.replicate_succ, List.filter_cons, h, ih]

theorem filter_drop_replicate {p : Int → Bool} {a : Int} (k : Nat) (h : p a = false) :
    (List.replicate k a).filter p = [] := by
  induction k with
  | zero => rfl
  | succ n ih => simp [List.replicate_succ, List.filter_cons, h, ih]

theorem RateLimiter.iterate_eq_replicate (limit : Nat) (windowMs t : Int)
    (hw : 0 < windowMs) :
    ∀ k, k ≤ limit →
      RateLimiter.iterate limit windowMs t k = ⟨List.replicate k t⟩ := by
  intro k
  induction k with
  | zero => intro _; rfl
  | succ n ih =>
      intro hk
      have hn : n ≤ limit := Nat.le_of_succ_le hk
      have hlt : n < limit := Nat.lt_of_succ_le hk
      have hpred : (decide (t - windowMs < t)) = true := by
        simp; omega
      unfold RateLimiter.iterate
      rw [ih hn]
      unfold RateLimiter.checkLimit RateLimiter.cleanup
      simp only [Bool.not_true, Bool.false_eq_true, if_false]
      rw [filter_keep_replicate n hpred]
      simp only [List.length_replicate]
      rw [if_neg (by omega)]
      simp [List.replicate_succ']

/-- Claim C1: with rate limiting enabled, `checkLimit` first purges all
timestamps at or beyond one window of age; if the surviving count is at
least `limit` it returns `false` and leaves the purged sequence unchanged,
otherwise it appends `now` and returns `true`.  Consequently, starting from
an empty limiter, each of the first `limit` calls inside one window is
admitted, the `limit+1`-th call in the same window is rejected, and once a
full window has elapsed admission succeeds again. -/
theorem checkLimit_purges_then_decides (limit : Nat) (windowMs now t u : Int)
    (s : RLState) (hw : 0 < windowMs) (hlim : 1 ≤ limit) :
    (let purged := RateLimiter.cleanup windowMs now s
     (limit ≤ purged.requests.length →
        RateLimiter.checkLimit true limit windowMs now s = (false, purged)) ∧
     (purged.requests.length < limit →
        RateLimiter.checkLimit true limit windowMs now s =
          (true, ⟨purged.requests ++ [now]⟩))) ∧
    (∀ k, k < limit →
      (RateLimiter.checkLimit true limit windowMs t
        (RateLimiter.iterate limit windowMs t k)).1 = true) ∧
    (RateLimiter.checkLimit true limit windowMs t
        (RateLimiter.iterate limit windowMs t limit)).1 = false ∧
    (t + windowMs ≤ u →
      (RateLimiter.checkLimit true limit windowMs u
        (RateLimiter.iterate limit windowMs t limit)).1 = true) := by
  refine ⟨⟨?_, ?_⟩, ?_, ?_, ?_⟩
  · intro hge
    unfold RateLimiter.checkLimit
    simp only [Bool.not_true, Bool.false_eq_true, if_false]
    rw [if_pos hge]
  · intro hlt
    unfold RateLimiter.checkLimit
    simp only [Bool.not_true, Bool.false_eq_true, if_false]
    rw [if_neg (by omega)]
  · intro k hk
    rw [RateLimiter.iterate_eq_replicate limit windowMs t hw k (Nat.le_of_lt hk)]
    unfold RateLimiter.checkLimit RateLimiter.cleanup
    simp only [Bool.not_true, Bool.false_eq_true, if_false]
    rw [filter_keep_replicate k (by simp; omega)]
    simp only [List.length_replicate]
    rw [if_neg (by omega)]
  · rw [RateLimiter.iterate_eq_replicate limit windowMs t hw limit (Nat.le_refl _)]
    unfold RateLimiter.checkLimit RateLimiter.cleanup
    simp only [Bool.not_true, Bool.false_eq_true, if_false]
    rw [filter_keep_replicate limit (by simp; omega)]
    simp only [List.length_replicate]
    rw [if_pos (Nat.le_refl _)]
  · intro hu
    rw [RateLimiter.iterate_eq_replicate limit windowMs t hw limit (Nat.le_refl _)]
    unfold RateLimiter.checkLimit RateLimiter.cleanup
    simp only [Bool.not_true, Bool.false_eq_true, if_false]
    rw [filter_drop_replicate limit (by simp; omega)]
    simp only [List.length_nil]
    rw [if_neg (by omega)]

/-- Concrete instantiation of `checkLimit_purges_then_decides`: limit 2 per
60000 ms window, three calls at time 0, then one call at time 60000. -/
theorem checkLimit_purges_then_decides_witness :
    ((0 : Int) < 60000 ∧ 1 ≤ 2) ∧
    (RateLimiter.checkLimit true 2 60000 0 (RateLimiter.iterate 2 60000 0 1)).1 = true ∧
    (RateLimiter.checkLimit true 2 60000 0 (RateLimiter.iterate 2 60000 0 2)).1 = false ∧
    (RateLimiter.checkLimit true 2 60000 60000 (RateLimiter.iterate 2 60000 0 2)).1 = true := by
  have h := checkLimit_purges_then_decides 2 60000 0 0 60000 ⟨[]⟩ (by decide) (by decide)
  exact ⟨⟨by decide, by decide⟩, h.2.1 1 (by decide), h.2.2.1, h.2.2.2 (by decide)⟩

/-! ## Cache manager (src/cache/cache-manager.ts, class CacheManager)

A JavaScript `Map` is modelled as an association list in insertion order:
`set` on a present key replaces the value in place, `set` on a new key
appends, `delete` removes the entry.  `Date.now()` is the explicit `now`
argument, and the configuration (`enableCache`, `cacheMaxSize`, default
TTL) is passed explicitly. -/

structure CacheEntry (Data : Type) where
  data : Data
  timestamp : Int
  ttl : Int
  hits : Nat
  deriving Repr, DecidableEq

structure CMState (Data : Type) where
  store : List (String × CacheEntry Data)
  hits : Nat
  misses : Nat
  deriving Repr, DecidableEq

def jsMapGet (store : List (String × CacheEntry Data)) (k : String) :
    Option (CacheEntry Data) :=
  match store with
  | [] => none
  | (k2, e) :: rest => if k2 = k then some e else jsMapGet rest k

def jsMapHas (store : List (String × CacheEntry Data)) (k : String) : Bool :=
  match store with
  | [] => false
  | (k2, _) :: rest => if k2 = k then true else jsMapHas rest k

def jsMapSet (store : List (String × CacheEntry Data)) (k : String)
    (e : CacheEntry Data) : List (String × CacheEntry Data) :=
  match store with
  | [] => [(k, e)]
  | (k2, e2) :: rest =>
      if k2 = k then (k, e) :: rest else (k2, e2) :: jsMapSet rest k e

def jsMapDelete (store : List (String × CacheEntry Data)) (k : String) :
    List (String × CacheEntry Data) :=
  match store with
  | [] => []
  | (k2, e2) :: rest =>
      if k2 = k then rest else (k2, e2) :: jsMapDelete rest k

/-- JavaScript `a || b` on the optional `ttl` argument: `undefined` and the
falsy value `0` both fall back to the default. -/
def jsOrInt (o : Option Int) (d : Int) : Int :=
  match o with
  | some t => if t = 0 then d else t
  | none => d

/-- Embedding of `CacheManager.get`. -/
def CacheManager.get (enable : Bool) (now : Int) (k : String)
    (s : CMState Data) : Option Data × CMState Data :=
  if !enable then (none, s)
  else
    match jsMapGet s.store k with
    | none => (none, { s with misses := s.misses + 1 })
    | some e =>
        if e.timestamp + e.ttl < now then
          (none, { s with store := jsMapDelete s.store k, misses := s.misses + 1 })
        else
          (some e.data,
            { s with store := jsMapSet s.store k { e with hits := e.hits + 1 },
                     hits := s.hits + 1 })

/-- One step of the `evictOldest` scan over the map entries. -/
def oldestStep (acc : Option String × Int) (kv : String × CacheEntry Data) :
    Option String × Int :=
  if kv.2.timestamp < acc.2 then (some kv.1, kv.2.timestamp) else acc

/-- Embedding of `CacheManager.evictOldest`: scan for the entry with the
strictly smallest timestamp below `now` (the scan starts at `Date.now()`),
deleting it when found. -/
def CacheManager.evictOldest (now : Int)
    (store : List (String × CacheEntry Data)) : List (String × CacheEntry Data) :=
  match (store.foldl oldestStep (none, now)).1 with
  | some k => jsMapDelete store k
  | none => store

/-- Embedding of `CacheManager.set`. -/
def CacheManager.set (enable : Bool) (maxSize : Nat) (defaultTTL : Int)
    (now : Int) (k : String) (d : Data) (ttl : Option Int)
    (s : CMState Data) : CMState Data :=
  if !enable then s
  else
    let store1 :=
      if maxSize ≤ s.store.length ∧ jsMapHas s.store k = false then
        CacheManager.evictOldest now s.store
      else s.store
    { s with store := jsMapSet store1 k ⟨d, now, jsOrInt ttl defaultTTL, 0⟩ }

theorem jsMapGet_jsMapSet_self (store : List (String × CacheEntry Data))
    (k : String) (e : CacheEntry Data) :
    jsMapGet (jsMapSet store k e) k = some e := by
  induction store with
  | nil => simp [jsMapSet, jsMapGet]
  | cons kv rest ih =>
      obtain ⟨k2, e2⟩ := kv
      by_cases h : k2 = k
      · simp [jsMapSet, jsMapGet, h]
      · simp [jsMapSet, jsMapGet, h, ih]

theorem jsMapHas_false_iff (store : List (String × CacheEntry Data)) (k : String) :
    jsMapHas store k = false ↔ k ∉ store.map Prod.fst := by
  induction store with
  | nil => simp [jsMapHas]
  | cons kv rest ih =>
      obtain ⟨k2, e2⟩ := kv
      by_cases h : k2 = k
      · simp [jsMapHas, h]
      · simp [jsMapHas, h, ih, Ne.symm h]

theorem jsMapHas_true_of_mem {store : List (String × CacheEntry Data)}
    {k : String} {e : CacheEntry Data} (h : (k, e) ∈ store) :
    jsMapHas store k = true := by
  induction store with
  | nil => simp at h
  | cons kv rest ih =>
      obtain ⟨k2, e2⟩ := kv
      rcases List.mem_cons.mp h with h1 | h1
      · simp [jsMapHas, (Prod.mk.injEq .. ▸ h1).1.symm]
      · by_cases hk : k2 = k
        · simp [jsMapHas, hk]
        · simp [jsMapHas, hk, ih h1]

theorem jsMapSet_of_not_has {store : List (String × CacheEntry Data)}
    {k : String} (e : CacheEntry Data) (h : jsMapHas store k = false) :
    jsMapSet store k e = store ++ [(k, e)] := by
  induction store with
  | nil => simp [jsMapSet]
  | cons kv rest ih =>
      obtain ⟨k2, e2⟩ := kv
      simp only [jsMapHas] at h
      by_cases hk : k2 = k
      · simp [hk] at h
      · simp [jsMapSet, hk, ih (by simpa [hk] using h)]

theorem length_jsMapSet_of_has {store : List (String × CacheEntry Data)}
    {k : String} (e : CacheEntry Data) (h : jsMapHas store k = true) :
    (jsMapSet store k e).length = store.length := by
  induction store with
  | nil => simp [jsMapHas] at h
  | cons kv rest ih =>
      obtain ⟨k2, e2⟩ := kv
      simp only [jsMapHas] at h
      by_cases hk : k2 = k
      · simp [jsMapSet, hk]
      · simp [jsMapSet, hk, ih (by simpa [hk] using h)]

theorem length_jsMapDelete_of_has {store : List (String × CacheEntry Data)}
    {k : String} (h : jsMapHas store k = true) :
    (jsMapDelete store k).length + 1 = store.length := by
  induction store with
  | nil => simp [jsMapHas] at h
  | cons kv rest ih =>
      obtain ⟨k2, e2⟩ := kv
      simp only [jsMapHas] at h
      by_cases hk : k2 = k
      · simp [jsMapDelete, hk]
      · simp [jsMapDelete, hk, ih (by simpa [hk] using h)]

theorem jsMapHas_jsMapDelete_self {store : List (String × CacheEntry Data)}
    {k : String} (hnd : (store.map Prod.fst).Nodup) :
    jsMapHas (jsMapDelete store k) k = false := by
  induction store with
  | nil => simp [jsMapDelete, jsMapHas]
  | cons kv rest ih =>
      obtain ⟨k2, e2⟩ := kv
      simp only [List.map_cons, List.nodup_cons] at hnd
      by_cases hk : k2 = k
      · rw [jsMapDelete, if_pos hk]
        exact (jsMapHas_false_iff rest k).mpr (hk ▸ hnd.1)
      · rw [jsMapDelete, if_neg hk, jsMapHas, if_neg hk]
        exact ih hnd.2

theorem jsMapHas_jsMapDelete_ne {store : List (String × CacheEntry Data)}
    {k k2 : String} (h : k2 ≠ k) :
    jsMapHas (jsMapDelete store k) k2 = jsMapHas store k2 := by
  induction store with
  | nil => simp [jsMapDelete]
  | cons kv rest ih =>
      obtain ⟨k3, e3⟩ := kv
      by_cases hk : k3 = k
      · rw [jsMapDelete, if_pos hk, jsMapHas, if_neg (by rw [hk]; exact fun hx => h hx.symm)]
      · rw [jsMapDelete, if_neg hk, jsMapHas, jsMapHas]
        by_cases hx : k3 = k2
        · simp [hx]
        · simp [hx, ih]

theorem jsMapHas_jsMapSet_self (store : List (String × CacheEntry Data))
    (k : String) (e : CacheEntry Data) :
    jsMapHas (jsMapSet store k e) k = true := by
  induction store with
  | nil => simp [jsMapSet, jsMapHas]
  | cons kv rest ih =>
      obtain ⟨k2, e2⟩ := kv
      by_cases hk : k2 = k
      · simp [jsMapSet, jsMapHas, hk]
      · simp [jsMapSet, jsMapHas, hk, ih]

theorem jsMapHas_jsMapSet_ne {store : List (String × CacheEntry Data)}
    {k k2 : String} (e : CacheEntry Data) (h : k2 ≠ k) :
    jsMapHas (jsMapSet store k e) k2 = jsMapHas store k2 := by
  induction store with
  | nil => simp [jsMapSet, jsMapHas, Ne.symm h]
  | cons kv rest ih =>
      obtain ⟨k3, e3⟩ := kv
      by_cases hk : k3 = k
      · rw [jsMapSet, if_pos hk, jsMapHas, if_neg (fun hx => h hx.symm), jsMapHas,
          if_neg (by rw [hk]; exact fun hx => (h hx.symm).elim)]
      · rw [jsMapSet, if_neg hk, jsMapHas, jsMapHas]
        by_cases hx : k3 = k2
        · simp [hx]
        · simp [hx, ih]

theorem foldl_oldestStep_fixed {store : List (String × CacheEntry Data)}
    (a : Option String) (m : Int)
    (h : ∀ kv ∈ store, ¬ kv.2.timestamp < m) :
    store.foldl oldestStep (a, m) = (a, m) := by
  induction store with
  | nil => rfl
  | cons kv rest ih =>
      rw [List.foldl_cons, oldestStep,
        if_neg (h kv (List.mem_cons_self kv rest))]
      exact ih (fun x hx => h x (List.mem_cons_of_mem kv hx))

theorem foldl_oldestStep_unique_min :
    ∀ (store : List (String × CacheEntry Data)) (a : Option String) (m : Int)
      (k0 : String) (e0 : CacheEntry Data),
      (k0, e0) ∈ store → e0.timestamp < m →
      (∀ kv ∈ store, kv.1 = k0 → kv = (k0, e0)) →
      (∀ kv ∈ store, kv.1 ≠ k0 → e0.timestamp < kv.2.timestamp) →
      store.foldl oldestStep (a, m) = (some k0, e0.timestamp) := by
  intro store
  induction store with
  | nil => intro a m k0 e0 hmem; simp at hmem
  | cons kv rest ih =>
      intro a m k0 e0 hmem hlt huniq hmin
      obtain ⟨k1, e1⟩ := kv
      by_cases hk : k1 = k0
      · have he : (k1, e1) = (k0, e0) :=
          huniq (k1, e1) (List.mem_cons_self _ _) hk
        rw [List.foldl_cons, oldestStep]
        rw [show ((k1, e1) : String × CacheEntry Data) = (k0, e0) from he]
        rw [if_pos hlt]
        refine foldl_oldestStep_fixed (some k0) e0.timestamp ?_
        intro x hx
        by_cases hx0 : x.1 = k0
        · have := huniq x (List.mem_cons_of_mem _ hx) hx0
          rw [this]
          exact lt_irrefl _
        · exact not_lt_of_gt (hmin x (List.mem_cons_of_mem _ hx) hx0)
      · have hmem2 : (k0, e0) ∈ rest := by
          rcases List.mem_cons.mp hmem with h1 | h1
          · exact absurd (congrArg Prod.fst h1).symm hk
          · exact h1
        have h1lt : e0.timestamp < e1.timestamp :=
          hmin (k1, e1) (List.mem_cons_self _ _) hk
        rw [List.foldl_cons, oldestStep]
        by_cases hcase : e1.timestamp < m
        · rw [if_pos hcase]
          exact ih (some k1) e1.timestamp k0 e0 hmem2 h1lt
            (fun x hx => huniq x (List.mem_cons_of_mem _ hx))
            (fun x hx => hmin x (List.mem_cons_of_mem _ hx))
        · rw [if_neg hcase]
          exact ih a m k0 e0 hmem2 hlt
            (fun x hx => huniq x (List.mem_cons_of_mem _ hx))
            (fun x hx => hmin x (List.mem_cons_of_mem _ hx))

theorem key_uniq_of_nodup {store : List (String × CacheEntry Data)}
    (hnd : (store.map Prod.fst).Nodup) {k0 : String} {e0 : CacheEntry Data}
    (hmem : (k0, e0) ∈ store) :
    ∀ kv ∈ store, kv.1 = k0 → kv = (k0, e0) := by
  induction store with
  | nil => simp at hmem
  | cons hd rest ih =>
      simp only [List.map_cons, List.nodup_cons] at hnd
      intro kv hkv hk
      rcases List.mem_cons.mp hmem with h1 | h1
      · rcases List.mem_cons.mp hkv with h2 | h2
        · rw [h2, h1]
        · exfalso
          apply hnd.1
          rw [← h1]
          show k0 ∈ List.map Prod.fst rest
          rw [← hk]
          exact List.mem_map_of_mem Prod.fst h2
      · rcases List.mem_cons.mp hkv with h2 | h2
        · exfalso
          apply hnd.1
          rw [← h2]
          show kv.1 ∈ List.map Prod.fst rest
          rw [hk]
          exact List.mem_map_of_mem Prod.fst h1
        · exact ih hnd.2 h1 kv h2 hk

/-- When the store holds a unique strictly-oldest entry whose timestamp lies
strictly below `now`, `evictOldest` deletes exactly that entry. -/
theorem evictOldest_eq_delete {store : List (String × CacheEntry Data)}
    {now : Int} {k0 : String} {e0 : CacheEntry Data}
    (hmem : (k0, e0) ∈ store) (hold : e0.timestamp < now)
    (hnd : (store.map Prod.fst).Nodup)
    (hmin : ∀ kv ∈ store, kv.1 ≠ k0 → e0.timestamp < kv.2.timestamp) :
    CacheManager.evictOldest now store = jsMapDelete store k0 := by
  unfold CacheManager.evictOldest
  rw [foldl_oldestStep_unique_min store none now k0 e0 hmem hold
    (key_uniq_of_nodup hnd hmem) hmin]

/-- When every entry of the store was created at or after `now`, the
eviction scan finds nothing and `evictOldest` is the identity. -/
theorem evictOldest_skips {store : List (String × CacheEntry Data)} {now : Int}
    (h : ∀ kv ∈ store, ¬ kv.2.timestamp < now) :
    CacheManager.evictOldest now store = store := by
  unfold CacheManager.evictOldest
  rw [foldl_oldestStep_fixed none now h]

/-- Claim C10: with caching disabled, `get` answers `null` and leaves the
whole cache state (store and hit/miss counters) unchanged, and `set` leaves
the state entirely unchanged. -/
theorem cache_disabled_is_noop (Data : Type) (maxSize : Nat)
    (defaultTTL now : Int) (k : String) (d : Data) (ttl : Option Int)
    (s : CMState Data) :
    CacheManager.get false now k s = (none, s) ∧
    CacheManager.set false maxSize defaultTTL now k d ttl s = s :=
  ⟨rfl, rfl⟩

/-- Claim C3: with caching enabled, `get` on an absent key increments the
global miss counter and answers `none`; on a live entry it answers the
stored data, bumping the entry hit count and the global hit counter; on an
expired entry it deletes the entry, bumps the miss counter and answers
`none`.  An entry freshly `set` with TTL `T` is retrievable at any time up
to `T` after insertion and reported absent strictly after that. -/
theorem cacheGet_hit_miss_expiry (Data : Type) (maxSize : Nat)
    (defaultTTL now t0 t1 t2 T : Int) (k : String) (d : Data)
    (e : CacheEntry Data) (s : CMState Data) (hT : T ≠ 0) :
    (jsMapGet s.store k = none →
      CacheManager.get true now k s = (none, { s with misses := s.misses + 1 })) ∧
    (jsMapGet s.store k = some e → now ≤ e.timestamp + e.ttl →
      CacheManager.get true now k s =
        (some e.data,
          { s with store := jsMapSet s.store k { e with hits := e.hits + 1 },
                   hits := s.hits + 1 })) ∧
    (jsMapGet s.store k = some e → e.timestamp + e.ttl < now →
      CacheManager.get true now k s =
        (none, { s with store := jsMapDelete s.store k, misses := s.misses + 1 })) ∧
    (t1 ≤ t0 + T →
      (CacheManager.get true t1 k
        (CacheManager.set true maxSize defaultTTL t0 k d (some T) s)).1 = some d) ∧
    (t0 + T < t2 →
      (CacheManager.get true t2 k
        (CacheManager.set true maxSize defaultTTL t0 k d (some T) s)).1 = none) := by
  have hset : jsMapGet (CacheManager.set true maxSize defaultTTL t0 k d (some T) s).store k
      = some ⟨d, t0, T, 0⟩ := by
    unfold CacheManager.set
    simp only [Bool.not_true, Bool.false_eq_true, if_false]
    rw [show jsOrInt (some T) defaultTTL = T by simp [jsOrInt, hT]]
    exact jsMapGet_jsMapSet_self _ k _
  refine ⟨?_, ?_, ?_, ?_, ?_⟩
  · intro hnone
    unfold CacheManager.get
    simp only [Bool.not_true, Bool.false_eq_true, if_false, hnone]
  · intro hsome hlive
    unfold CacheManager.get
    simp only [Bool.not_true, Bool.false_eq_true, if_false, hsome]
    rw [if_neg (by omega)]
  · intro hsome hexp
    unfold CacheManager.get
    simp only [Bool.not_true, Bool.false_eq_true, if_false, hsome]
    rw [if_pos hexp]
  · intro hlive
    unfold CacheManager.get
    simp only [Bool.not_true, Bool.false_eq_true, if_false, hset]
    rw [if_neg (show ¬(t0 + T < t1) by omega)]
  · intro hexp
    unfold CacheManager.get
    simp only [Bool.not_true, Bool.false_eq_true, if_false, hset]
    rw [if_pos (show t0 + T < t2 from hexp)]

/-- Concrete instantiation of `cacheGet_hit_miss_expiry`: a value cached at
time 0 with TTL 1000 is still served at time 1000 and reported absent at
time 1001. -/
theorem cacheGet_hit_miss_expiry_witness :
    ((1000 : Int) ≠ 0) ∧
    (CacheManager.get true 1000 "q"
      (CacheManager.set true 10 5000 0 "q" (7 : Nat) (some 1000) ⟨[], 0, 0⟩)).1 = some 7 ∧
    (CacheManager.get true 1001 "q"
      (CacheManager.set true 10 5000 0 "q" (7 : Nat) (some 1000) ⟨[], 0, 0⟩)).1 = none := by
  have h := cacheGet_hit_miss_expiry Nat 10 5000 0 0 1000 1001 1000 "q" 7
    ⟨7, 0, 1000, 0⟩ ⟨[], 0, 0⟩ (by decide)
  exact ⟨by decide, h.2.2.2.1 (by decide), h.2.2.2.2 (by decide)⟩

/-- A store of ten distinct keys whose entries were all created at
timestamp 100, as produced by ten `set` calls in the same millisecond. -/
def sameTickStore : List (String × CacheEntry Nat) :=
  [("a0", ⟨0, 100, 3600000, 0⟩), ("a1", ⟨0, 100, 3600000, 0⟩),
   ("a2", ⟨0, 100, 3600000, 0⟩), ("a3", ⟨0, 100, 3600000, 0⟩),
   ("a4", ⟨0, 100, 3600000, 0⟩), ("a5", ⟨0, 100, 3600000, 0⟩),
   ("a6", ⟨0, 100, 3600000, 0⟩), ("a7", ⟨0, 100, 3600000, 0⟩),
   ("a8", ⟨0, 100, 3600000, 0⟩), ("a9", ⟨0, 100, 3600000, 0⟩)]

/-- Counterexample to claim C4 as stated: with `maxSize = 10` and a store
already holding ten entries, a `set` of the fresh key "b" issued at the
same timestamp (100) as the existing entries evicts nothing — the
`evictOldest` scan starts its comparison at `Date.now()` and uses a strict
`<` — so the store grows to eleven entries and the oldest entry "a0" is
still present, contradicting "leaves exactly N entries". -/
theorem set_at_capacity_can_skip_eviction :
    (CacheManager.set true 10 3600000 100 "b" (0 : Nat) none
      ⟨sameTickStore, 0, 0⟩).store.length = 11 ∧
    jsMapHas (CacheManager.set true 10 3600000 100 "b" (0 : Nat) none
      ⟨sameTickStore, 0, 0⟩).store "a0" = true := by
  constructor
  · rfl
  · rfl

/-- Iterated insertion: `insertSeq n` performs `n` cache `set` calls with
fresh keys `key 0, …, key (n-1)` at times `ts 0, …, ts (n-1)`, starting
from the empty cache. -/
def CacheManager.insertSeq (maxSize : Nat) (defaultTTL : Int)
    (key : Nat → String) (ts : Nat → Int) (d : Data) : Nat → CMState Data
  | 0 => ⟨[], 0, 0⟩
  | n + 1 =>
      CacheManager.set true maxSize defaultTTL (ts n) (key n) d none
        (CacheManager.insertSeq maxSize defaultTTL key ts d n)

theorem insertSeq_store (maxSize : Nat) (defaultTTL : Int) (key : Nat → String)
    (ts : Nat → Int) (d : Data) :
    ∀ n, n ≤ maxSize → (∀ i j, i < j → j < n → key i ≠ key j) →
      CacheManager.insertSeq maxSize defaultTTL key ts d n =
        ⟨(List.range n).map (fun i => (key i, ⟨d, ts i, defaultTTL, 0⟩)), 0, 0⟩ := by
  intro n
  induction n with
  | zero => intro _ _; rfl
  | succ m ih =>
      intro hm hinj
      have hfill := ih (Nat.le_of_succ_le hm)
        (fun i j hij hj => hinj i j hij (Nat.lt_succ_of_lt hj))
      unfold CacheManager.insertSeq
      rw [hfill]
      unfold CacheManager.set
      simp only [Bool.not_true, Bool.false_eq_true, if_false]
      have hnotin : jsMapHas
          ((List.range m).map (fun i => ((key i : String), (⟨d, ts i, defaultTTL, 0⟩ : CacheEntry Data)))) (key m) = false := by
        rw [jsMapHas_false_iff]
        simp only [List.map_map, Function.comp_def, List.mem_map, List.mem_range]
        rintro ⟨i, hi, hkey⟩
        exact hinj i m hi (Nat.lt_succ_self m) hkey
      rw [if_neg (by
        simp only [List.length_map, List.length_range]
        exact fun hc => absurd hc.1 (by omega))]
      rw [jsMapSet_of_not_has _ hnotin]
      simp [List.range_succ, jsOrInt]

/-- Claim C4 (amended): `set` with an already-present key overwrites in
place and never evicts.  `set` with a fresh key on a store at capacity
evicts the single entry with the oldest creation timestamp provided that
timestamp is strictly earlier than the current time (otherwise the scan,
which starts at `Date.now()` with a strict comparison, evicts nothing and
the store grows beyond `maxSize`); in that case the store size is
preserved.  Inserting `maxSize + 1` distinct fingerprints at strictly
increasing timestamps into an empty cache leaves exactly `maxSize` entries
and the missing one is the oldest-inserted. -/
theorem set_evicts_oldest_amended (Data : Type) (maxSize : Nat)
    (defaultTTL now : Int) (k k0 : String) (d : Data) (e0 : CacheEntry Data)
    (ttl : Option Int) (s : CMState Data) (key : Nat → String) (ts : Nat → Int) :
    (jsMapHas s.store k = true →
      CacheManager.set true maxSize defaultTTL now k d ttl s =
        { s with store := jsMapSet s.store k ⟨d, now, jsOrInt ttl defaultTTL, 0⟩ } ∧
      (CacheManager.set true maxSize defaultTTL now k d ttl s).store.length =
        s.store.length) ∧
    (maxSize ≤ s.store.length → jsMapHas s.store k = false →
     (k0, e0) ∈ s.store → e0.timestamp < now →
     (s.store.map Prod.fst).Nodup →
     (∀ kv ∈ s.store, kv.1 ≠ k0 → e0.timestamp < kv.2.timestamp) →
      (CacheManager.set true maxSize defaultTTL now k d ttl s).store =
        jsMapSet (jsMapDelete s.store k0) k ⟨d, now, jsOrInt ttl defaultTTL, 0⟩ ∧
      (CacheManager.set true maxSize defaultTTL now k d ttl s).store.length =
        s.store.length ∧
      jsMapHas (CacheManager.set true maxSize defaultTTL now k d ttl s).store k0 = false ∧
      jsMapHas (CacheManager.set true maxSize defaultTTL now k d ttl s).store k = true) ∧
    (1 ≤ maxSize →
     (∀ i j, i < j → j ≤ maxSize → key i ≠ key j) →
     (∀ i j, i < j → j ≤ maxSize → ts i < ts j) →
      (CacheManager.insertSeq maxSize defaultTTL key ts d (maxSize + 1)).store.length
        = maxSize ∧
      jsMapHas (CacheManager.insertSeq maxSize defaultTTL key ts d (maxSize + 1)).store
        (key 0) = false ∧
      (∀ i, 1 ≤ i → i ≤ maxSize →
        jsMapHas (CacheManager.insertSeq maxSize defaultTTL key ts d (maxSize + 1)).store
          (key i) = true)) := by
  have hgen : ∀ (s2 : CMState Data) (kk kk0 : String) (ee0 : CacheEntry Data)
      (nn : Int) (tt : Option Int),
      maxSize ≤ s2.store.length → jsMapHas s2.store kk = false →
      (kk0, ee0) ∈ s2.store → ee0.timestamp < nn →
      (s2.store.map Prod.fst).Nodup →
      (∀ kv ∈ s2.store, kv.1 ≠ kk0 → ee0.timestamp < kv.2.timestamp) →
      (CacheManager.set true maxSize defaultTTL nn kk d tt s2).store =
        jsMapSet (jsMapDelete s2.store kk0) kk ⟨d, nn, jsOrInt tt defaultTTL, 0⟩ ∧
      (CacheManager.set true maxSize defaultTTL nn kk d tt s2).store.length =
        s2.store.length ∧
      jsMapHas (CacheManager.set true maxSize defaultTTL nn kk d tt s2).store kk0 = false ∧
      jsMapHas (CacheManager.set true maxSize defaultTTL nn kk d tt s2).store kk = true := by
    intro s2 kk kk0 ee0 nn tt hcap hnew hmem hold hnd hmin
    have hne : kk0 ≠ kk := by
      intro hx
      rw [← hx] at hnew
      rw [jsMapHas_true_of_mem hmem] at hnew
      exact Bool.true_eq_false.mp hnew
    have hstore :
        (CacheManager.set true maxSize defaultTTL nn kk d tt s2).store =
          jsMapSet (jsMapDelete s2.store kk0) kk ⟨d, nn, jsOrInt tt defaultTTL, 0⟩ := by
      unfold CacheManager.set
      simp only [Bool.not_true, Bool.false_eq_true, if_false]
      rw [if_pos ⟨hcap, hnew⟩, evictOldest_eq_delete hmem hold hnd hmin]
    have hdelnew : jsMapHas (jsMapDelete s2.store kk0) kk = false := by
      rw [jsMapHas_jsMapDelete_ne (Ne.symm hne)]
      exact hnew
    refine ⟨hstore, ?_, ?_, ?_⟩
    · rw [hstore]
      have h1 := length_jsMapDelete_of_has (jsMapHas_true_of_mem hmem)
      have h2 : (jsMapSet (jsMapDelete s2.store kk0) kk
          (⟨d, nn, jsOrInt tt defaultTTL, 0⟩ : CacheEntry Data)).length
          = (jsMapDelete s2.store kk0).length + 1 := by
        rw [jsMapSet_of_not_has _ hdelnew]
        simp
      omega
    · rw [hstore, jsMapHas_jsMapSet_ne _ hne]
      exact jsMapHas_jsMapDelete_self hnd
    · rw [hstore]
      exact jsMapHas_jsMapSet_self _ _ _
  refine ⟨?_, ?_, ?_⟩
  · intro hhas
    have hstore : CacheManager.set true maxSize defaultTTL now k d ttl s =
        { s with store := jsMapSet s.store k ⟨d, now, jsOrInt ttl defaultTTL, 0⟩ } := by
      unfold CacheManager.set
      simp only [Bool.not_true, Bool.false_eq_true, if_false]
      rw [if_neg (fun hc => by rw [hhas] at hc; exact Bool.true_eq_false.mp hc.2)]
    exact ⟨hstore, by rw [hstore]; exact length_jsMapSet_of_has _ hhas⟩
  · exact hgen s k k0 e0 now ttl
  · intro hpos hinj hmono
    have hfill := insertSeq_store maxSize defaultTTL key ts d maxSize (Nat.le_refl _)
      (fun i j hij hj => hinj i j hij (Nat.le_of_lt hj))
    have hstep : CacheManager.insertSeq maxSize defaultTTL key ts d (maxSize + 1) =
        CacheManager.set true maxSize defaultTTL (ts maxSize) (key maxSize) d none
          (CacheManager.insertSeq maxSize defaultTTL key ts d maxSize) := rfl
    set base : CMState Data :=
      ⟨(List.range maxSize).map (fun i => (key i, ⟨d, ts i, defaultTTL, 0⟩)), 0, 0⟩ with hbase
    have hcap : maxSize ≤ base.store.length := by simp [hbase]
    have hnew : jsMapHas base.store (key maxSize) = false := by
      rw [jsMapHas_false_iff]
      simp only [hbase, List.map_map, Function.comp_def, List.mem_map, List.mem_range]
      rintro ⟨i, hi, hkey⟩
      exact hinj i maxSize hi (Nat.le_refl _) hkey
    have hmem : ((key 0 : String), (⟨d, ts 0, defaultTTL, 0⟩ : CacheEntry Data)) ∈ base.store := by
      simp only [hbase, List.mem_map, List.mem_range]
      exact ⟨0, by omega, rfl⟩
    have hold : (⟨d, ts 0, defaultTTL, 0⟩ : CacheEntry Data).timestamp < ts maxSize :=
      hmono 0 maxSize (by omega) (Nat.le_refl _)
    have hnd : (base.store.map Prod.fst).Nodup := by
      simp only [hbase, List.map_map, Function.comp_def]
      rw [List.nodup_map_iff_inj_on (List.nodup_range maxSize)]
      intro i hi j hj hkey
      rcases Nat.lt_trichotomy i j with h | h | h
      · exact absurd hkey (hinj i j h (Nat.le_of_lt (List.mem_range.mp hj)))
      · exact h
      · exact absurd hkey.symm (hinj j i h (Nat.le_of_lt (List.mem_range.mp hi)))
    have hmin : ∀ kv ∈ base.store, kv.1 ≠ key 0 →
        (⟨d, ts 0, defaultTTL, 0⟩ : CacheEntry Data).timestamp < kv.2.timestamp := by
      simp only [hbase, List.mem_map, List.mem_range]
      rintro kv ⟨i, hi, rfl⟩ hne
      have hi0 : 0 < i := by
        rcases Nat.eq_zero_or_pos i with h | h
        · exact absurd (by rw [h]) hne
        · exact h
      exact hmono 0 i hi0 (Nat.le_of_lt hi)
    have h := hgen base (key maxSize) (key 0) ⟨d, ts 0, defaultTTL, 0⟩ (ts maxSize) none
      hcap hnew hmem hold hnd hmin
    rw [hstep, hfill]
    refine ⟨?_, ?_, ?_⟩
    · rw [h.2.1]
      simp [hbase]
    · exact h.2.2.1
    · intro i h1i hiN
      rcases Nat.lt_or_ge i maxSize with hlt | hge
      · rw [h.1, jsMapHas_jsMapSet_ne _ (hinj i maxSize hlt (Nat.le_refl _)),
          jsMapHas_jsMapDelete_ne (hinj 0 i h1i hiN).symm]
        apply jsMapHas_true_of_mem
        simp only [hbase, List.mem_map, List.mem_range]
        exact ⟨i, hlt, rfl⟩
      · have : i = maxSize := by omega
        rw [this, h.2.2.2]

def keyW : Nat → String := fun i => if i = 0 then "a" else "b"

def tsW : Nat → Int := fun i => i

/-- Concrete instantiation of `set_evicts_oldest_amended`: an overwrite on a
full store keeps its size; a fresh insert at a strictly later time evicts
the stale entry; and two distinct inserts at times 0 and 1 into a
one-entry cache leave one entry, the second one. -/
theorem set_evicts_oldest_amended_witness :
    (CacheManager.set true 1 1000 7 "a" (9 : Nat) none
      ⟨[("a", ⟨5, 0, 10, 0⟩)], 0, 0⟩).store.length = 1 ∧
    jsMapHas (CacheManager.set true 1 1000 10 "b2" (9 : Nat) none
      ⟨[("old", ⟨5, 5, 10, 0⟩)], 0, 0⟩).store "old" = false ∧
    (CacheManager.insertSeq 1 1000 keyW tsW (0 : Nat) 2).store.length = 1 ∧
    jsMapHas (CacheManager.insertSeq 1 1000 keyW tsW (0 : Nat) 2).store "a" = false ∧
    jsMapHas (CacheManager.insertSeq 1 1000 keyW tsW (0 : Nat) 2).store "b" = true := by
  have ha := (set_evicts_oldest_amended Nat 1 1000 7 "a" "y" 9 ⟨0, 0, 0, 0⟩ none
    ⟨[("a", ⟨5, 0, 10, 0⟩)], 0, 0⟩ keyW tsW).1 (by decide)
  have hb := (set_evicts_oldest_amended Nat 1 1000 10 "b2" "old" 9 ⟨5, 5, 10, 0⟩ none
    ⟨[("old", ⟨5, 5, 10, 0⟩)], 0, 0⟩ keyW tsW).2.1 (by decide) (by decide)
    (by decide) (by decide) (by decide) (by decide)
  have hc := (set_evicts_oldest_amended Nat 1 1000 0 "x" "y" 0 ⟨0, 0, 0, 0⟩ none
    ⟨[], 0, 0⟩ keyW tsW).2.2 (by decide)
    (by
      intro i j hij hj
      have hi0 : i = 0 := by omega
      have hj1 : j = 1 := by omega
      rw [hi0, hj1]
      decide)
    (by
      intro i j hij hj
      have hi0 : i = 0 := by omega
      have hj1 : j = 1 := by omega
      rw [hi0, hj1]
      decide)
  refine ⟨ha.2, hb.2.2.1, hc.1, ?_, ?_⟩
  · have h := hc.2.1
    simpa [keyW] using h
  · have h := hc.2.2 1 (by decide) (by decide)
    simpa [keyW] using h

/-! ## Retry controller (class PresearchMCPServer, methods
`performSearchWithRetry`, `isNonRetryableError`, `calculateRetryDelay`)

The zero-argument upstream operation is modelled as a trace
`op : Nat → Except String α` giving the outcome of each invocation, errors
being carried by their message string exactly as in the source.  Delay
arithmetic (`baseDelay * backoffFactor ** attempt` capped at `maxDelay`)
is carried out over the rationals. -/

instance {ε α : Type} [DecidableEq ε] [DecidableEq α] :
    DecidableEq (Except ε α) := fun x y =>
  match x, y with
  | .ok a, .ok b =>
      if h : a = b then isTrue (by rw [h])
      else isFalse (by intro hc; cases hc; exact h rfl)
  | .error a, .error b =>
      if h : a = b then isTrue (by rw [h])
      else isFalse (by intro hc; cases hc; exact h rfl)
  | .ok _, .error _ => isFalse (by intro hc; cases hc)
  | .error _, .ok _ => isFalse (by intro hc; cases hc)

structure RetryConfig where
  maxRetries : Nat
  baseDelay : ℚ
  maxDelay : ℚ
  backoffFactor : ℚ
  deriving Repr, DecidableEq

def charsInfix : List Char → List Char → Bool
  | needle, [] => needle.isEmpty
  | needle, c :: rest => needle.isPrefixOf (c :: rest) || charsInfix needle rest

/-- JavaScript `haystack.includes(needle)`. -/
def strIncludes (haystack needle : String) : Bool :=
  charsInfix needle.toList haystack.toList

/-- JavaScript `s.toLowerCase()` restricted to the ASCII case mapping used
by the error messages of the source. -/
def jsToLower (s : String) : String :=
  String.mk (s.toList.map Char.toLower)

/-- Embedding of `isNonRetryableError`: the message, lower-cased, contains
one of the four non-retryable markers (invalid credentials, forbidden,
validation failure, rate limit). -/
def isNonRetryableError (msg : String) : Bool :=
  let m := jsToLower msg
  strIncludes m "invalid api key" || strIncludes m "access forbidden" ||
    strIncludes m "invalid input parameters" || strIncludes m "rate limit exceeded"

/-- Embedding of `calculateRetryDelay`: exponential backoff capped at
`maxDelay`. -/
def calculateRetryDelay (cfg : RetryConfig) (attempt : Nat) : ℚ :=
  min (cfg.baseDelay * cfg.backoffFactor ^ attempt) cfg.maxDelay

/-- Embedding of the `performSearchWithRetry` loop.  `attempt` is the
0-based attempt counter, `remaining` the number of retries still allowed
(`maxRetries - attempt` in the source loop).  The result records the
outcome, the total number of invocations of the operation, and the list of
delays slept before each retry, in order. -/
def retryAux (cfg : RetryConfig) (op : Nat → Except String α) :
    Nat → Nat → Except String α × Nat × List ℚ
  | attempt, 0 =>
      match op attempt with
      | .ok a => (.ok a, attempt + 1, [])
      | .error e => (.error e, attempt + 1, [])
  | attempt, r + 1 =>
      match op attempt with
      | .ok a => (.ok a, attempt + 1, [])
      | .error e =>
          if isNonRetryableError e then (.error e, attempt + 1, [])
          else
            let rest := retryAux cfg op (attempt + 1) r
            (rest.1, rest.2.1, calculateRetryDelay cfg attempt :: rest.2.2)

/-- Embedding of `performSearchWithRetry`: run the loop from attempt 0 with
`maxRetries` retries allowed. -/
def performSearchWithRetry (cfg : RetryConfig) (op : Nat → Except String α) :
    Except String α × Nat × List ℚ :=
  retryAux cfg op 0 cfg.maxRetries

theorem retryAux_retryable_then_ok {α : Type} (cfg : RetryConfig)
    (op : Nat → Except String α) (e : Nat → String) (v : α) :
    ∀ (r a0 : Nat),
      (∀ j, j < r → op (a0 + j) = .error (e (a0 + j)) ∧
        isNonRetryableError (e (a0 + j)) = false) →
      op (a0 + r) = .ok v →
      retryAux cfg op a0 r =
        (.ok v, a0 + r + 1, (List.range' a0 r).map (calculateRetryDelay cfg)) := by
  intro r
  induction r with
  | zero =>
      intro a0 _ hok
      rw [show a0 + 0 = a0 from rfl] at hok
      simp [retryAux, hok]
  | succ r ih =>
      intro a0 hfail hok
      have h0 := hfail 0 (Nat.succ_pos r)
      rw [show a0 + 0 = a0 from rfl] at h0
      simp only [retryAux, h0.1, h0.2, Bool.false_eq_true, if_false]
      rw [ih (a0 + 1)
        (fun j hj => by
          have := hfail (j + 1) (Nat.succ_lt_succ hj)
          rwa [show a0 + (j + 1) = a0 + 1 + j by omega] at this)
        (by rwa [show a0 + 1 + r = a0 + (r + 1) by omega])]
      rw [List.range'_succ, List.map_cons]
      simp only [Prod.mk.injEq]
      exact ⟨trivial, by omega, trivial⟩

theorem retryAux_all_retryable_fail {α : Type} (cfg : RetryConfig)
    (op : Nat → Except String α) (e : Nat → String) :
    ∀ (r a0 : Nat),
      (∀ j, j ≤ r → op (a0 + j) = .error (e (a0 + j)) ∧
        isNonRetryableError (e (a0 + j)) = false) →
      retryAux cfg op a0 r =
        (.error (e (a0 + r)), a0 + r + 1,
          (List.range' a0 r).map (calculateRetryDelay cfg)) := by
  intro r
  induction r with
  | zero =>
      intro a0 hfail
      have h0 := hfail 0 (Nat.le_refl 0)
      rw [show a0 + 0 = a0 from rfl] at h0
      simp [retryAux, h0.1]
  | succ r ih =>
      intro a0 hfail
      have h0 := hfail 0 (Nat.zero_le _)
      rw [show a0 + 0 = a0 from rfl] at h0
      simp only [retryAux, h0.1, h0.2, Bool.false_eq_true, if_false]
      rw [ih (a0 + 1)
        (fun j hj => by
          have := hfail (j + 1) (Nat.succ_le_succ hj)
          rwa [show a0 + (j + 1) = a0 + 1 + j by omega] at this)]
      rw [List.range'_succ, List.map_cons]
      simp only [Prod.mk.injEq]
      exact ⟨by rw [show a0 + 1 + r = a0 + (r + 1) by omega], by omega, trivial⟩

/-- Claim C2: an operation failing with retryable errors exactly
`maxRetries` times and then succeeding yields the success result after
exactly `maxRetries + 1` invocations; an operation whose first failure is
non-retryable is invoked exactly once and that error is propagated; an
operation failing retryably on every allowed attempt is invoked exactly
`maxRetries + 1` times and the last error is propagated unchanged. -/
theorem performSearchWithRetry_attempts (α : Type) (cfg : RetryConfig)
    (op : Nat → Except String α) (e : Nat → String) (v : α) :
    ((∀ j, j < cfg.maxRetries → op j = .error (e j) ∧
        isNonRetryableError (e j) = false) →
      op cfg.maxRetries = .ok v →
      (performSearchWithRetry cfg op).1 = .ok v ∧
      (performSearchWithRetry cfg op).2.1 = cfg.maxRetries + 1) ∧
    (op 0 = .error (e 0) → isNonRetryableError (e 0) = true →
      (performSearchWithRetry cfg op).1 = .error (e 0) ∧
      (performSearchWithRetry cfg op).2.1 = 1) ∧
    ((∀ j, j ≤ cfg.maxRetries → op j = .error (e j) ∧
        isNonRetryableError (e j) = false) →
      (performSearchWithRetry cfg op).1 = .error (e cfg.maxRetries) ∧
      (performSearchWithRetry cfg op).2.1 = cfg.maxRetries + 1) := by
  refine ⟨?_, ?_, ?_⟩
  · intro hfail hok
    unfold performSearchWithRetry
    rw [retryAux_retryable_then_ok cfg op e v cfg.maxRetries 0
      (fun j hj => by simpa using hfail j hj) (by simpa using hok)]
    exact ⟨rfl, by simp⟩
  · intro herr hnr
    unfold performSearchWithRetry
    cases hm : cfg.maxRetries with
    | zero => simp [retryAux, herr]
    | succ m => simp [retryAux, herr, hnr]
  · intro hfail
    unfold performSearchWithRetry
    rw [retryAux_all_retryable_fail cfg op e cfg.maxRetries 0
      (fun j hj => by simpa using hfail j hj)]
    exact ⟨by simp, by simp⟩

/-- Claim C9: the delay slept before the retry following the 0-based
failed attempt `i` is exactly `min (baseDelay * backoffFactor ^ i)
maxDelay`, both as computed by `calculateRetryDelay` and as recorded at
position `i` of the delay trace of the retry loop. -/
theorem retryDelay_exponential_backoff (α : Type) (cfg : RetryConfig)
    (op : Nat → Except String α) (i : Nat) (d : ℚ) :
    calculateRetryDelay cfg i = min (cfg.baseDelay * cfg.backoffFactor ^ i) cfg.maxDelay ∧
    ((performSearchWithRetry cfg op).2.2.get? i = some d →
      d = min (cfg.baseDelay * cfg.backoffFactor ^ i) cfg.maxDelay) := by
  have hgen : ∀ (r a0 j : Nat) (x : ℚ),
      (retryAux cfg op a0 r).2.2.get? j = some x →
      x = calculateRetryDelay cfg (a0 + j) := by
    intro r
    induction r with
    | zero =>
        intro a0 j x hx
        cases hop : op a0 with
        | ok v => simp [retryAux, hop] at hx
        | error e2 => simp [retryAux, hop] at hx
    | succ r ih =>
        intro a0 j x hx
        cases hop : op a0 with
        | ok v => simp [retryAux, hop] at hx
        | error e2 =>
            by_cases hnr : isNonRetryableError e2
            · simp [retryAux, hop, hnr] at hx
            · simp only [retryAux, hop, hnr, Bool.false_eq_true, if_false] at hx
              cases j with
              | zero =>
                  simp only [List.get?_cons_zero, Option.some.injEq] at hx
                  rw [← hx, Nat.add_zero]
              | succ m =>
                  simp only [List.get?_cons_succ] at hx
                  have := ih (a0 + 1) m x hx
                  rwa [show a0 + 1 + m = a0 + (m + 1) by omega] at this
  constructor
  · rfl
  · intro hx
    have := hgen cfg.maxRetries 0 i d hx
    simpa [calculateRetryDelay] using this

def retryCfgW : RetryConfig := ⟨2, 1, 10, 2⟩

def retryCfg9 : RetryConfig := ⟨1, 1, 10, 2⟩

def opLateOk : Nat → Except String Nat :=
  fun i => if i < 2 then .error "boom" else .ok 42

def opAuthFail : Nat → Except String Nat :=
  fun _ => .error "Invalid API key. Please check your PRESEARCH_API_KEY environment variable."

def opAlwaysFail : Nat → Except String Nat := fun _ => .error "boom"

def msgBoom : Nat → String := fun _ => "boom"

def msgAuth : Nat → String :=
  fun _ => "Invalid API key. Please check your PRESEARCH_API_KEY environment variable."

/-- Concrete instantiation of `performSearchWithRetry_attempts` with
`maxRetries = 2`: two retryable failures then success gives the success
after 3 attempts; an invalid-API-key failure propagates after 1 attempt;
three retryable failures propagate the last error after 3 attempts. -/
theorem performSearchWithRetry_attempts_witness :
    (performSearchWithRetry retryCfgW opLateOk).1 = .ok 42 ∧
    (performSearchWithRetry retryCfgW opLateOk).2.1 = 3 ∧
    (performSearchWithRetry retryCfgW opAuthFail).1 =
      .error "Invalid API key. Please check your PRESEARCH_API_KEY environment variable." ∧
    (performSearchWithRetry retryCfgW opAuthFail).2.1 = 1 ∧
    (performSearchWithRetry retryCfgW opAlwaysFail).1 = .error "boom" ∧
    (performSearchWithRetry retryCfgW opAlwaysFail).2.1 = 3 := by
  have h1 := (performSearchWithRetry_attempts Nat retryCfgW opLateOk msgBoom 42).1
    (by decide) (by decide)
  have h2 := (performSearchWithRetry_attempts Nat retryCfgW opAuthFail msgAuth 0).2.1
    (by decide) (by decide)
  have h3 := (performSearchWithRetry_attempts Nat retryCfgW opAlwaysFail msgBoom 0).2.2
    (by decide)
  exact ⟨h1.1, h1.2, h2.1, h2.2, h3.1, h3.2⟩

/-- Concrete instantiation of `retryDelay_exponential_backoff`: with
`baseDelay = 1`, `backoffFactor = 2`, `maxDelay = 10`, the delay recorded
before the first retry is `min (1 * 2 ^ 0) 10 = 1`. -/
theorem retryDelay_exponential_backoff_witness :
    (performSearchWithRetry retryCfg9 opAlwaysFail).2.2.get? 0 = some 1 ∧
    (1 : ℚ) = min (retryCfg9.baseDelay * retryCfg9.backoffFactor ^ 0) retryCfg9.maxDelay := by
  have hy : (performSearchWithRetry retryCfg9 opAlwaysFail).2.2.get? 0 = some 1 := by
    have hnr : isNonRetryableError "boom" = false := by decide
    simp only [performSearchWithRetry, retryCfg9, retryAux, opAlwaysFail, hnr,
      Bool.false_eq_true, if_false, calculateRetryDelay, List.get?_cons_zero,
      Option.some.injEq]
    norm_num
  exact ⟨hy, (retryDelay_exponential_backoff Nat retryCfg9 opAlwaysFail 0 1).2 hy⟩

/-! ## Cache fingerprint (CacheManager.generateKey)

`generateKey` sorts the parameter keys (JavaScript `Array.sort`, i.e.
lexicographic string order), rebuilds the object in sorted key order, and
serializes it with `JSON.stringify`.  Parameter records are modelled as
association lists of key/value pairs; values are the JSON scalars that
occur in search parameters. -/

inductive JsonVal
  | str (s : String)
  | num (n : Int)
  | boolean (b : Bool)
  | null
  deriving Repr, DecidableEq

def quoteStr (s : String) : String := "\"" ++ s ++ "\""

def renderVal : JsonVal → String
  | .str s => quoteStr s
  | .num n => toString n
  | .boolean b => if b then "true" else "false"
  | .null => "null"

def renderPair (p : String × JsonVal) : String :=
  quoteStr p.1 ++ ":" ++ renderVal p.2

/-- Key-sorting step of `generateKey` (`Object.keys(params).sort()` and the
subsequent reduce that rebuilds the record in sorted key order). -/
def sortParams (l : List (String × JsonVal)) : List (String × JsonVal) :=
  l.mergeSort (fun p q => decide (p.1 ≤ q.1))

/-- Embedding of `CacheManager.generateKey`: serialize the key-sorted
parameter record. -/
def generateKey (l : List (String × JsonVal)) : String :=
  "\x7b" ++ String.intercalate "," ((sortParams l).map renderPair) ++ "\x7d"

theorem sortParams_perm (l : List (String × JsonVal)) : List.Perm (sortParams l) l :=
  List.mergeSort_perm l _

theorem sortParams_pairwise_le (l : List (String × JsonVal)) :
    (sortParams l).Pairwise (fun p q => p.1 ≤ q.1) := by
  have h := @List.sorted_mergeSort (String × JsonVal)
    (fun p q => decide (p.1 ≤ q.1))
    (fun a b c hab hbc => by
      simp only [decide_eq_true_eq] at hab hbc ⊢
      exact le_trans hab hbc)
    (fun a b => by
      simp only [Bool.or_eq_true, decide_eq_true_eq]
      exact le_total a.1 b.1)
    l
  exact h.imp (fun hab => by simpa using hab)

/-- Claim C5: the cache fingerprint is order-independent — two parameter
records holding the same key/value bindings in different orders (with no
duplicate keys) receive the same fingerprint string. -/
theorem generateKey_order_independent (p1 p2 : List (String × JsonVal))
    (hperm : List.Perm p1 p2) (hnd : (p1.map Prod.fst).Nodup) :
    generateKey p1 = generateKey p2 := by
  have hnd2 : (p2.map Prod.fst).Nodup := ((hperm.map Prod.fst).nodup_iff).mp hnd
  have hsortnd : ∀ (l : List (String × JsonVal)), (l.map Prod.fst).Nodup →
      (sortParams l).Pairwise (fun p q => p.1 ≠ q.1) := by
    intro l hl
    have : ((sortParams l).map Prod.fst).Nodup :=
      (((sortParams_perm l).map Prod.fst).nodup_iff).mpr hl
    exact (List.pairwise_map.mp this)
  have hstrict : ∀ (l : List (String × JsonVal)), (l.map Prod.fst).Nodup →
      (sortParams l).Pairwise (fun p q => p.1 < q.1) := by
    intro l hl
    exact ((sortParams_pairwise_le l).and (hsortnd l hl)).imp
      (fun hpq => lt_of_le_of_ne hpq.1 hpq.2)
  haveI : IsAntisymm (String × JsonVal) (fun p q => p.1 < q.1) :=
    ⟨fun a b h1 h2 => absurd (lt_trans h1 h2) (lt_irrefl _)⟩
  have heq : sortParams p1 = sortParams p2 :=
    List.eq_of_perm_of_sorted
      ((sortParams_perm p1).trans (hperm.trans (sortParams_perm p2).symm))
      (hstrict p1 hnd) (hstrict p2 hnd2)
  unfold generateKey
  rw [heq]

/-- Concrete instantiation of `generateKey_order_independent`: the records
`{q: "ai", page: 2}` and `{page: 2, q: "ai"}` receive the same
fingerprint. -/
theorem generateKey_order_independent_witness :
    (List.Perm [("q", JsonVal.str "ai"), ("page", JsonVal.num 2)]
      [("page", JsonVal.num 2), ("q", JsonVal.str "ai")]) ∧
    generateKey [("q", JsonVal.str "ai"), ("page", JsonVal.num 2)] =
      generateKey [("page", JsonVal.num 2), ("q", JsonVal.str "ai")] := by
  have hperm : List.Perm [("q", JsonVal.str "ai"), ("page", JsonVal.num 2)]
      [("page", JsonVal.num 2), ("q", JsonVal.str "ai")] :=
    List.Perm.swap ("page", JsonVal.num 2) ("q", JsonVal.str "ai") []
  exact ⟨hperm, generateKey_order_independent _ _ hperm (by decide)⟩

/-! ## Response normalizer (src/utils/response-parser.ts, class ResponseParser)

Raw upstream items are records of optional string fields; JavaScript
falsiness of a string (`undefined` or `""`) drives the `||` defaults.  The
embedding covers the `title`, `url` and `description` components of each
normalized result together with the dropping filter and the `total`/`page`
defaulting of `parseSearchResponse`; the remaining output fields
(`timestamp`, `favicon`, `domain`, `snippet`) depend on the wall clock or
on URL parsing and are not touched by any claim. -/

structure RawItem where
  title : Option String
  url : Option String
  link : Option String
  description : Option String
  snippet : Option String
  deriving Repr, DecidableEq

structure SearchResult where
  title : String
  url : String
  description : String
  deriving Repr, DecidableEq

/-- JavaScript `a || b` for an optional string: `undefined` and `""` are
falsy. -/
def jsOrStr (o : Option String) (d : String) : String :=
  match o with
  | some s => if s = "" then d else s
  | none => d

def jsIsSpace (c : Char) : Bool :=
  c = ' ' || c = '\t' || c = '\n' || c = '\r' || c = '\x0b' || c = '\x0c'

def isCtl (c : Char) : Bool :=
  c = '\r' || c = '\n' || c = '\t'

/-- JavaScript `replace(/\s+/g, ' ')`: every maximal whitespace run becomes
one space.  The Boolean state records whether the previous character
belonged to a whitespace run. -/
def collapseWsAux : Bool → List Char → List Char
  | _, [] => []
  | prevSpace, c :: rest =>
      if jsIsSpace c then
        if prevSpace then collapseWsAux true rest
        else ' ' :: collapseWsAux true rest
      else c :: collapseWsAux false rest

def collapseWs (l : List Char) : List Char := collapseWsAux false l

/-- JavaScript `replace(/[\r\n\t]/g, ' ')`. -/
def stripCtl (l : List Char) : List Char :=
  l.map (fun c => if isCtl c then ' ' else c)

/-- JavaScript `trim()`: strip whitespace from both ends. -/
def trimChars (l : List Char) : List Char :=
  (((l.dropWhile jsIsSpace).reverse.dropWhile jsIsSpace)).reverse

/-- Embedding of `ResponseParser.sanitizeText`: collapse whitespace runs,
replace line breaks and tabs, trim, and cap at 500 characters. -/
def sanitizeText (t : String) : String :=
  String.mk ((trimChars (stripCtl (collapseWs t.toList))).take 500)

/-- Decimal digit characters, as produced by the template literal
`Result ${index + 1}`; only called on values below 10. -/
def digitChar : Nat → Char
  | 0 => '0'
  | 1 => '1'
  | 2 => '2'
  | 3 => '3'
  | 4 => '4'
  | 5 => '5'
  | 6 => '6'
  | 7 => '7'
  | 8 => '8'
  | _ => '9'

/-- Decimal rendering with explicit fuel (`fuel = n` always suffices,
since `n / 10` loses a digit per step). -/
def natReprGo : Nat → Nat → List Char → List Char
  | 0, n, acc => digitChar n :: acc
  | fuel + 1, n, acc =>
      if n < 10 then digitChar n :: acc
      else natReprGo fuel (n / 10) (digitChar (n % 10) :: acc)

/-- Decimal rendering of a natural number. -/
def natRepr (n : Nat) : List Char := natReprGo n n []

/-- The URL chosen by the normalizer: `result.url || result.link || ''`. -/
def rawUrl (r : RawItem) : String := jsOrStr r.url (jsOrStr r.link "")

/-- Normalization of one raw item at 0-based position `index`. -/
def normalizeOne (index : Nat) (r : RawItem) : SearchResult :=
  { title := sanitizeText
      (jsOrStr r.title ("Result " ++ String.mk (natRepr (index + 1)))),
    url := rawUrl r,
    description := sanitizeText (jsOrStr r.description (jsOrStr r.snippet "")) }

/-- Embedding of `ResponseParser.normalizeSearchResults`: map each item to
its normalized form, then drop the results whose URL is empty. -/
def ResponseParser.normalizeSearchResults (results : List RawItem) :
    List SearchResult :=
  (results.enum.map (fun p => normalizeOne p.1 p.2)).filter
    (fun r => r.url ≠ "")

/-- The shape of the `results` field of an upstream payload: an array, or a
truthy non-array value (on which `.map` throws), or a falsy non-array
value (which `|| []` replaces by the empty array). -/
inductive ResultsField
  | arr (items : List RawItem)
  | truthyNonArray
  | falsyNonArray
  deriving Repr, DecidableEq

structure APIResponse where
  results : Option ResultsField
  total : Option Int
  page : Option Int
  source : Option String
  deriving Repr, DecidableEq

structure PresearchResponse where
  query : String
  results : List SearchResult
  total : Int
  page : Int
  source : String
  deriving Repr, DecidableEq

def resultsOrEmpty : Option ResultsField → Except String (List RawItem)
  | some (.arr l) => .ok l
  | some .truthyNonArray => .error "response.results.map is not a function"
  | some .falsyNonArray => .ok []
  | none => .ok []

/-- JavaScript `a || b` for an optional number: `undefined` and `0` are
falsy. -/
def jsOrNum (o : Option Int) (d : Int) : Int :=
  match o with
  | some n => if n = 0 then d else n
  | none => d

/-- Body of the `try` block of `parseSearchResponse`. -/
def ResponseParser.parseBody (resp : APIResponse) (query : String) :
    Except String PresearchResponse :=
  match resultsOrEmpty resp.results with
  | .error e => .error e
  | .ok raw =>
      let results := ResponseParser.normalizeSearchResults raw
      .ok { query := query,
            results := results,
            total := jsOrNum resp.total results.length,
            page := jsOrNum resp.page 1,
            source := jsOrStr resp.source "presearch-api" }

/-- Embedding of `ResponseParser.parseSearchResponse`: the `try/catch`
around the body; a parse failure is absorbed into the minimal fallback
response. -/
def ResponseParser.parseSearchResponse (resp : APIResponse) (query : String) :
    PresearchResponse :=
  match ResponseParser.parseBody resp query with
  | .ok r => r
  | .error _ =>
      { query := query, results := [], total := 0, page := 1,
        source := "error-fallback" }

theorem isCtl_false_of_space_false {c : Char} (h : jsIsSpace c = false) :
    isCtl c = false := by
  simp only [jsIsSpace, Bool.or_eq_false_iff, decide_eq_false_iff_not] at h
  simp only [isCtl, Bool.or_eq_false_iff, decide_eq_false_iff_not]
  exact ⟨⟨h.1.1.2, h.1.1.1.2⟩, h.1.1.1.1.2⟩

theorem jsIsSpace_digitChar (m : Nat) : jsIsSpace (digitChar m) = false := by
  rcases m with _ | _ | _ | _ | _ | _ | _ | _ | _ | m9 <;>
    first
      | decide
      | exact (by decide : jsIsSpace (Char.ofNat 57) = false)

theorem natReprGo_ne_nil : ∀ (fuel n : Nat) (acc : List Char),
    natReprGo fuel n acc ≠ [] := by
  intro fuel
  induction fuel with
  | zero => intro n acc; simp [natReprGo]
  | succ f ih =>
      intro n acc
      simp only [natReprGo]
      split
      · simp
      · exact ih (n / 10) (digitChar (n % 10) :: acc)

theorem natReprGo_no_space : ∀ (fuel n : Nat) (acc : List Char),
    (∀ c ∈ acc, jsIsSpace c = false) →
    ∀ c ∈ natReprGo fuel n acc, jsIsSpace c = false := by
  intro fuel
  induction fuel with
  | zero =>
      intro n acc hacc c hc
      simp only [natReprGo] at hc
      rcases List.mem_cons.mp hc with h1 | h1
      · rw [h1]; exact jsIsSpace_digitChar n
      · exact hacc c h1
  | succ f ih =>
      intro n acc hacc c hc
      simp only [natReprGo] at hc
      split at hc
      · rcases List.mem_cons.mp hc with h1 | h1
        · rw [h1]; exact jsIsSpace_digitChar n
        · exact hacc c h1
      · refine ih (n / 10) (digitChar (n % 10) :: acc) ?_ c hc
        intro x hx
        rcases List.mem_cons.mp hx with h1 | h1
        · rw [h1]; exact jsIsSpace_digitChar (n % 10)
        · exact hacc x h1

theorem natRepr_ne_nil (n : Nat) : natRepr n ≠ [] :=
  natReprGo_ne_nil n n []

theorem natRepr_no_space (n : Nat) : ∀ c ∈ natRepr n, jsIsSpace c = false :=
  natReprGo_no_space n n [] (by intro c hc; simp at hc)

theorem dropWhile_no_space {l : List Char}
    (h : ∀ c ∈ l, jsIsSpace c = false) : l.dropWhile jsIsSpace = l := by
  cases l with
  | nil => rfl
  | cons c rest =>
      rw [List.dropWhile_cons, if_neg (by simp [h c (List.mem_cons_self c rest)])]

theorem collapseWsAux_no_space {l : List Char}
    (h : ∀ c ∈ l, jsIsSpace c = false) :
    ∀ b, collapseWsAux b l = l := by
  induction l with
  | nil => intro b; rfl
  | cons c rest ih =>
      intro b
      show (if jsIsSpace c then _ else c :: collapseWsAux false rest) = c :: rest
      rw [if_neg (by simp [h c (List.mem_cons_self c rest)]),
        ih (fun x hx => h x (List.mem_cons_of_mem c hx)) false]

theorem collapseWsAux_append_of_no_space {l1 l2 : List Char}
    (h : ∀ c ∈ l1, jsIsSpace c = false) :
    collapseWsAux false (l1 ++ l2) = l1 ++ collapseWsAux false l2 := by
  induction l1 with
  | nil => rfl
  | cons c rest ih =>
      rw [List.cons_append]
      show (if jsIsSpace c then _ else c :: collapseWsAux false (rest ++ l2))
        = c :: (rest ++ collapseWsAux false l2)
      rw [if_neg (by simp [h c (List.mem_cons_self c rest)]),
        ih (fun x hx => h x (List.mem_cons_of_mem c hx))]

theorem stripCtl_no_ctl {l : List Char}
    (h : ∀ c ∈ l, isCtl c = false) : stripCtl l = l := by
  induction l with
  | nil => rfl
  | cons c rest ih =>
      show (if isCtl c then ' ' else c) :: stripCtl rest = c :: rest
      rw [if_neg (by simp [h c (List.mem_cons_self c rest)]),
        ih (fun x hx => h x (List.mem_cons_of_mem c hx))]

theorem sanitizeText_result_default (m : Nat)
    (hlen : (natRepr m).length ≤ 493) :
    sanitizeText ("Result " ++ String.mk (natRepr m)) =
      "Result " ++ String.mk (natRepr m) := by
  have hds := natRepr_no_space m
  have htoList : ("Result " ++ String.mk (natRepr m)).toList
      = ['R', 'e', 's', 'u', 'l', 't'] ++ (' ' :: natRepr m) := rfl
  have hpre : ∀ c ∈ (['R', 'e', 's', 'u', 'l', 't'] : List Char),
      jsIsSpace c = false := by decide
  unfold sanitizeText collapseWs
  rw [htoList, collapseWsAux_append_of_no_space hpre]
  rw [show collapseWsAux false (' ' :: natRepr m)
      = ' ' :: collapseWsAux true (natRepr m) by
    show (if jsIsSpace ' ' then _ else _) = _
    rw [if_pos (by decide)]
    rw [if_neg (by decide)]]
  rw [collapseWsAux_no_space hds true]
  rw [stripCtl_no_ctl (by
    intro c hc
    rcases List.mem_append.mp hc with h1 | h1
    · exact isCtl_false_of_space_false (hpre c h1)
    · rcases List.mem_cons.mp h1 with h2 | h2
      · rw [h2]; decide
      · exact isCtl_false_of_space_false (hds c h2))]
  unfold trimChars
  rw [show (['R', 'e', 's', 'u', 'l', 't'] ++ (' ' :: natRepr m))
      = 'R' :: (['e', 's', 'u', 'l', 't'] ++ (' ' :: natRepr m)) from rfl]
  rw [List.dropWhile_cons, if_neg (by decide)]
  have hrevne : (natRepr m).reverse ≠ [] := by
    intro hx
    exact natRepr_ne_nil m (List.reverse_eq_nil_iff.mp hx)
  rcases hrev : (natRepr m).reverse with _ | ⟨d0, ds0⟩
  · exact absurd hrev hrevne
  · have hd0 : jsIsSpace d0 = false := by
      apply hds
      rw [← List.mem_reverse, hrev]
      exact List.mem_cons_self d0 ds0
    rw [show ('R' :: (['e', 's', 'u', 'l', 't'] ++ (' ' :: natRepr m))).reverse
        = (natRepr m).reverse ++ [' ', 't', 'l', 'u', 's', 'e', 'R'] by simp]
    rw [hrev, List.cons_append, List.dropWhile_cons, if_neg (by simp [hd0])]
    rw [← List.cons_append, ← hrev]
    rw [show ((natRepr m).reverse ++ [' ', 't', 'l', 'u', 's', 'e', 'R']).reverse
        = 'R' :: (['e', 's', 'u', 'l', 't'] ++ (' ' :: natRepr m)) by simp]
    rw [List.take_of_length_le (by simp; omega)]
    rfl

/-- Claim C6: the normalizer equals map-then-filter pushed through: it
keeps exactly the items with a usable URL (from `url` or `link`), in
order, each retained item keeping that URL; an item with a missing or
empty title receives the default title `"Result {index+1}"`; and when the
upstream payload omits `total`, the parsed response reports exactly the
number of retained entries. -/
theorem normalize_drops_urlless (items : List RawItem) (resp : APIResponse)
    (query : String) (i : Nat) (r : RawItem) :
    (ResponseParser.normalizeSearchResults items =
      (items.enum.filter (fun p => rawUrl p.2 ≠ "")).map
        (fun p => normalizeOne p.1 p.2)) ∧
    (rawUrl r ≠ "" → (normalizeOne i r).url = rawUrl r) ∧
    ((r.title = none ∨ r.title = some "") → (natRepr (i + 1)).length ≤ 493 →
      (normalizeOne i r).title = "Result " ++ String.mk (natRepr (i + 1))) ∧
    (resp.results = some (.arr items) → resp.total = none →
      (ResponseParser.parseSearchResponse resp query).total =
        ((ResponseParser.normalizeSearchResults items).length : Int)) := by
  refine ⟨?_, ?_, ?_, ?_⟩
  · unfold ResponseParser.normalizeSearchResults
    rw [List.filter_map]
    rfl
  · intro _
    rfl
  · intro htitle hlen
    have hdef : jsOrStr r.title ("Result " ++ String.mk (natRepr (i + 1)))
        = "Result " ++ String.mk (natRepr (i + 1)) := by
      rcases htitle with h | h
      · rw [h]; rfl
      · rw [h]; simp [jsOrStr]
    show sanitizeText (jsOrStr r.title ("Result " ++ String.mk (natRepr (i + 1))))
        = "Result " ++ String.mk (natRepr (i + 1))
    rw [hdef]
    exact sanitizeText_result_default (i + 1) hlen
  · intro hresults htotal
    unfold ResponseParser.parseSearchResponse ResponseParser.parseBody
    rw [hresults, htotal]
    rfl

/-- Concrete instantiation of `normalize_drops_urlless`: of the two raw
items `[{title:"A", url:"http://x"}, {title:"B"}]` only the first is
retained, an untitled item at position 0 gets title "Result 1", and with
`total` omitted upstream the parsed total is 1. -/
theorem normalize_drops_urlless_witness :
    ResponseParser.normalizeSearchResults
      [⟨some "A", some "http://x", none, none, none⟩,
       ⟨some "B", none, none, none, none⟩] =
      [⟨"A", "http://x", ""⟩] ∧
    (normalizeOne 0 (⟨none, some "http://x", none, none, none⟩ : RawItem)).title
      = "Result 1" ∧
    (ResponseParser.parseSearchResponse
      ⟨some (.arr [⟨some "A", some "http://x", none, none, none⟩,
                   ⟨some "B", none, none, none, none⟩]), none, none, none⟩
      "q").total = 1 := by
  have h := normalize_drops_urlless
    [⟨some "A", some "http://x", none, none, none⟩,
     ⟨some "B", none, none, none, none⟩]
    ⟨some (.arr [⟨some "A", some "http://x", none, none, none⟩,
                 ⟨some "B", none, none, none, none⟩]), none, none, none⟩
    "q" 0 ⟨none, some "http://x", none, none, none⟩
  refine ⟨?_, ?_, ?_⟩
  · rw [h.1]; decide
  · have ht := h.2.2.1 (Or.inl rfl) (by decide)
    rw [ht]; decide
  · have htot := h.2.2.2 rfl rfl
    rw [htot]
    have := h.1
    rw [this]
    decide

/-- Claim C7: `parseSearchResponse` is total — a failing parse body is
absorbed by the catch and produces the fallback response carrying the
original query, an empty result list and a zero total; and a payload whose
`results` field is a truthy non-array really does make the body fail. -/
theorem parse_absorbs_failures (resp : APIResponse) (query : String) :
    (∀ e, ResponseParser.parseBody resp query = .error e →
      ResponseParser.parseSearchResponse resp query =
        { query := query, results := [], total := 0, page := 1,
          source := "error-fallback" }) ∧
    (resp.results = some .truthyNonArray →
      ResponseParser.parseBody resp query =
        .error "response.results.map is not a function") := by
  constructor
  · intro e he
    unfold ResponseParser.parseSearchResponse
    rw [he]
  · intro hr
    unfold ResponseParser.parseBody
    rw [hr]
    rfl

/-- Concrete instantiation of `parse_absorbs_failures`: a payload whose
`results` field is a truthy non-array yields the fallback response. -/
theorem parse_absorbs_failures_witness :
    ResponseParser.parseBody ⟨some .truthyNonArray, some 5, none, none⟩ "q" =
      .error "response.results.map is not a function" ∧
    ResponseParser.parseSearchResponse ⟨some .truthyNonArray, some 5, none, none⟩ "q" =
      { query := "q", results := [], total := 0, page := 1,
        source := "error-fallback" } := by
  have h := parse_absorbs_failures ⟨some .truthyNonArray, some 5, none, none⟩ "q"
  have hbody := h.2 rfl
  exact ⟨hbody, h.1 "response.results.map is not a function" hbody⟩

/-! ## Error classification and the tool-call dispatcher
(src/utils/error-handler.ts, class ErrorHandler;
src/server/presearch-mcp-server.ts, PresearchServer.setupRequestHandlers)

A thrown JavaScript value is one of: an already-classified
`PresearchError` (carrying its `code`), an Axios error (classified by HTTP
status and error code), a Zod validation error, or a plain `Error`
carrying only a message.  `handleError` maps it to a `(code, message)`
pair; the dispatcher catch-block turns that pair into the error
envelope. -/

inductive JsError
  | presearch (code : String) (message : String)
  | axios (status : Option Nat) (errCode : Option String) (message : String)
  | zod (issues : List String)
  | plain (message : String)
  deriving Repr, DecidableEq

/-- Embedding of `ErrorHandler.handleAxiosError`. -/
def handleAxiosError (status : Option Nat) (errCode : Option String)
    (message : String) : String × String :=
  match status with
  | some 400 => ("VALIDATION_ERROR", "Bad request: " ++ message)
  | some 401 => ("API_ERROR", "Unauthorized: Invalid API key")
  | some 403 => ("API_ERROR", "Forbidden: Access denied")
  | some 404 => ("API_ERROR", "Not found: Endpoint does not exist")
  | some 429 => ("RATE_LIMIT_ERROR", "Rate limit exceeded")
  | some 500 => ("API_ERROR", "Internal server error")
  | some 502 => ("API_ERROR", "Bad gateway")
  | some 503 => ("API_ERROR", "Service unavailable")
  | some 504 => ("API_ERROR", "Gateway timeout")
  | _ =>
      if errCode = some "ECONNABORTED" then ("TIMEOUT_ERROR", "Request timeout")
      else if errCode = some "ECONNREFUSED" then ("API_ERROR", "Connection refused")
      else if errCode = some "ENOTFOUND" then ("API_ERROR", "DNS resolution failed")
      else ("API_ERROR", "Network error: " ++ message)

/-- Embedding of `ErrorHandler.handleZodError`. -/
def handleZodError (issues : List String) : String × String :=
  ("VALIDATION_ERROR", "Validation failed: " ++ String.intercalate ", " issues)

/-- Embedding of `ErrorHandler.handleError`: a `PresearchError` passes
through unchanged; Axios and Zod errors are classified; anything else
becomes an `UNKNOWN_ERROR` with the original message (or a stock message
when it is empty). -/
def ErrorHandler.handleError : JsError → String × String
  | .presearch code message => (code, message)
  | .axios status errCode message => handleAxiosError status errCode message
  | .zod issues => handleZodError issues
  | .plain message =>
      ("UNKNOWN_ERROR", if message = "" then "Unknown error occurred" else message)

structure ToolEnvelope where
  isError : Bool
  code : Option String
  message : String
  deriving Repr, DecidableEq

/-- Embedding of the `CallToolRequestSchema` handler of
`PresearchServer.setupRequestHandlers`: the admission check runs first; a
rejected call throws the plain `Error` with message
"Rate limit exceeded. Please try again later.", which the catch block
routes through `ErrorHandler.handleError` into the error envelope.  An
admitted call returns the tool result, or, when the tool itself threw, the
envelope of its handled error. -/
def callToolEnvelope (enableRL : Bool) (limit : Nat) (windowMs now : Int)
    (rl : RLState) (toolResult : Except JsError String) :
    ToolEnvelope × RLState :=
  let adm := RateLimiter.checkLimit enableRL limit windowMs now rl
  if adm.1 then
    match toolResult with
    | .ok text => (⟨false, none, text⟩, adm.2)
    | .error e =>
        let h := ErrorHandler.handleError e
        (⟨true, some h.1, h.2⟩, adm.2)
  else
    let h := ErrorHandler.handleError
      (.plain "Rate limit exceeded. Please try again later.")
    (⟨true, some h.1, h.2⟩, adm.2)

/-- Three rapid tool calls at time 0 against a fresh limiter with limit 2
per 60000 ms window, each upstream tool call succeeding. -/
def thirdCallState : RLState :=
  (callToolEnvelope true 2 60000 0
    (callToolEnvelope true 2 60000 0 ⟨[]⟩ (.ok "r1")).2 (.ok "r2")).2

/-- Claim C8 evaluated on the code: with limit 2 per window, the first two
rapid `presearch_search` calls succeed, and the third is rejected by the
limiter — but its error envelope carries the code `UNKNOWN_ERROR`, not
`RATE_LIMIT_ERROR`, because the dispatcher throws a plain `Error` which
`ErrorHandler.handleError` can only classify as unknown.  The repository's
own `RateLimitError` class (code `RATE_LIMIT_ERROR`) is reserved for
upstream HTTP 429 responses, as the last conjunct shows. -/
theorem rateLimited_call_envelope_is_unknown_error :
    (callToolEnvelope true 2 60000 0 ⟨[]⟩ (.ok "r1")).1.isError = false ∧
    (callToolEnvelope true 2 60000 0
      (callToolEnvelope true 2 60000 0 ⟨[]⟩ (.ok "r1")).2 (.ok "r2")).1.isError = false ∧
    (callToolEnvelope true 2 60000 0 thirdCallState (.ok "r3")).1 =
      ⟨true, some "UNKNOWN_ERROR", "Rate limit exceeded. Please try again later."⟩ ∧
    (callToolEnvelope true 2 60000 0 thirdCallState (.ok "r3")).1.code ≠
      some "RATE_LIMIT_ERROR" ∧
    ErrorHandler.handleError (.axios (some 429) none "too many") =
      ("RATE_LIMIT_ERROR", "Rate limit exceeded") := by
  refine ⟨by decide, by decide, by decide, by decide, by decide⟩

end Presearch
